import Mathlib

/-
Verification of the GroundX batched-ingestion pipeline of this repository
(the vendored files groundx/ingest.py and groundx/csv_splitter.py) against
its natural-language specification.

The Python code is shallowly embedded.  Pure logic becomes Lean functions.
External effects (filesystem existence checks, URL parsing, HTTP calls, the
poll stream of the ingestion monitor) become explicit oracle parameters.
Raised exceptions become Except values or an explicit error component, and
the side effects that a claim talks about (binary uploads, registration
calls) are recorded in explicit event lists.
-/

namespace GroundXSpec

/-! ## Module constants (ingest.py, lines 49-58) -/

def MAX_BATCH_SIZE : Nat := 50

def MIN_BATCH_SIZE : Nat := 1

def MAX_BATCH_SIZE_BYTES : Nat := 50 * 1024 * 1024

/-- SUFFIX_ALIASES of ingest.py, lines 49-54, as an association list. -/
def SUFFIX_ALIASES : List (String × String) :=
  [(".jpeg", "jpg"), (".heic", "heif"), (".tif", "tiff"), (".md", "txt")]

/-- Membership lookup in SUFFIX_ALIASES, mirroring the Python dict access. -/
def lookupAlias (sfx : String) : Option String :=
  (SUFFIX_ALIASES.find? (fun kv => kv.1 == sfx)).map (fun kv => kv.2)

/-! ## Delimited-file splitter (csv_splitter.py)

A delimited file is modelled by the data the splitter actually reads from
it: the file name split into stem and extension (os.path.splitext of the
basename), the parsed header line, the parsed data rows (one line per row,
matching the row accounting of get_row_count, which counts lines minus
one), and the byte size reported by os.path.getsize. -/

structure DelimFile where
  stem : String
  ext : String
  header : List String
  rows : List (List String)
  size : Nat
deriving DecidableEq

/-- determine_splits (csv_splitter.py, lines 17-21):
row_mod = int(rows_count / 1000) + 1, file_mod = int(size / 1024 / 1024) + 1,
result = max of the two.  The float divisions truncate, which on the sizes
involved agrees with Nat division. -/
def determine_splits (df : DelimFile) : Nat :=
  let row_mod := df.rows.length / 1000 + 1
  let file_mod := df.size / 1024 / 1024 + 1
  max row_mod file_mod

/-- Ceiling division, the math.ceil(rows_count / splits) of split. -/
def ceilDiv (a b : Nat) : Nat := (a + b - 1) / b

/-- Fuelled chunking: groups a list into consecutive blocks of length c,
written with explicit fuel so that it is structural and reduces in the
kernel.  With fuel at least the list length it is the grouping performed by
the writer loop of split (a fresh output file is opened exactly when
current_row mod rows_per_file = 0). -/
def chunksAux (c : Nat) : Nat → List α → List (List α)
  | _, [] => []
  | 0, _ :: _ => []
  | fuel + 1, x :: xs => ((x :: xs).take c) :: chunksAux c fuel ((x :: xs).drop c)

def chunksOf (c : Nat) (l : List α) : List (List α) := chunksAux c l.length l

/-- One output file written by split: its path and its full contents
(header row followed by the data rows of its chunk). -/
structure Fragment where
  path : String
  content : List (List String)
deriving DecidableEq

/-- Fragment file name (csv_splitter.py, line 48): the extension is the
literal ".csv" regardless of the extension of the source file. -/
def fragmentName (stem : String) (n : Nat) : String :=
  stem ++ "_" ++ toString n ++ ".csv"

/-- Builds the fragments for the given chunks, numbering output files from
n upward inside the scratch directory and writing the header first into
each (csv_splitter.py, lines 42-59). -/
def numberFragments (header : List String) (dir stem : String) :
    Nat → List (List (List String)) → List Fragment
  | _, [] => []
  | n, c :: cs =>
    ⟨dir ++ "/" ++ fragmentName stem n, header :: c⟩ ::
      numberFragments header dir stem (n + 1) cs

/-- Result of CSVSplitter.split: either the original file path as the sole
output (split factor below 2) or the list of fragment files. -/
inductive SplitOutcome where
  | original
  | fragments (fs : List Fragment)
deriving DecidableEq

/-- CSVSplitter.split (csv_splitter.py, lines 23-64).  tempDir stands for
the scratch directory freshly created by tempfile.mkdtemp. -/
def split (df : DelimFile) (tempDir : String) : SplitOutcome :=
  let splits := determine_splits df
  if splits < 2 then .original
  else
    let rows_per_file := ceilDiv df.rows.length splits
    .fragments
      (numberFragments df.header tempDir df.stem 1 (chunksOf rows_per_file df.rows))

/-! ## Batching loop (ingest.py, lines 349-367 and 232-262)

The directory loop of ingest_directory and the local-document loop of the
synchronous ingest path have the same shape: accumulate items while the
cumulative byte size stays within MAX_BATCH_SIZE_BYTES and the count stays
below the effective batch size, and dispatch the accumulated batch as soon
as the next candidate would cross either bound, then dispatch the final
nonempty remainder.  batchLoop returns the dispatched batches in dispatch
order. -/

/-- A file enumerated by ingest_directory: path, basename, suffix and the
byte size reported by stat. -/
structure DirFile where
  path : String
  name : String
  suffix : String
  size : Nat
deriving DecidableEq

/-- Effective batch size (ingest.py, lines 201 and 352):
max(MIN_BATCH_SIZE, min(batch_size or MIN_BATCH_SIZE, MAX_BATCH_SIZE)).
A missing batch_size and the falsy value 0 both collapse to
MIN_BATCH_SIZE. -/
def effective_batch_size (batchSize : Option Int) : Nat :=
  (max (MIN_BATCH_SIZE : Int)
    (min
      (match batchSize with
        | none => (MIN_BATCH_SIZE : Int)
        | some b => if b = 0 then (MIN_BATCH_SIZE : Int) else b)
      (MAX_BATCH_SIZE : Int))).toNat

/-- The batching loop.  The accumulator pair (current_batch,
current_batch_size) mirrors the two loop variables of the source; the
final if mirrors the trailing dispatch of the remainder. -/
def batchLoop (size : α → Nat) (n maxBytes : Nat) :
    List α → List α → Nat → List (List α)
  | [], current_batch, _ =>
      if current_batch.isEmpty then [] else [current_batch]
  | f :: fs, current_batch, current_batch_size =>
      if current_batch_size + size f > maxBytes ∨ current_batch.length ≥ n then
        current_batch :: batchLoop size n maxBytes fs [f] (size f)
      else
        batchLoop size n maxBytes fs (current_batch ++ [f]) (current_batch_size + size f)

/-- The batches handed to _upload_file_batch by ingest_directory, in
dispatch order. -/
def dispatched_batches (n : Nat) (files : List DirFile) : List (List DirFile) :=
  batchLoop DirFile.size n MAX_BATCH_SIZE_BYTES files [] 0

/-! ## Document model

Modelled from the spec: the Document and IngestRemoteDocument record types
live in groundx/types, which is not vendored under src/; the spec (section
3) lists their fields, and ingest.py reads exactly these fields.  A
document lacking the file_path attribute (the duck-typed hasattr check of
prep_documents, spec section 9) is modelled by file_path = none. -/

structure Document where
  bucket_id : Option Int := none
  file_name : Option String := none
  file_type : Option String := none
  process_level : Option String := none
  search_data : Option String := none
  file_path : Option String := none
deriving DecidableEq

/-- Modelled from the spec: the registration record whose source_url
replaces the local path (spec section 3). -/
structure IngestRemoteDocument where
  bucket_id : Option Int := none
  file_name : Option String := none
  file_type : Option String := none
  process_level : Option String := none
  search_data : Option String := none
  source_url : String
deriving DecidableEq

/-! ## Document classifier (prep_documents, ingest.py lines 79-124)

The two predicates of the source, is_valid_url (urlparse with scheme and
netloc both nonempty) and is_valid_local_path (os.path.exists after
expanduser), query the URL parser and the filesystem; both are external to
the vendored code and are passed in as boolean oracles. -/

/-- The conversion of a remote document performed at ingest.py lines
110-117: all fields copied, source_url set to the file path unchanged. -/
def toRemoteDocument (d : Document) (p : String) : IngestRemoteDocument :=
  { bucket_id := d.bucket_id, file_name := d.file_name, file_type := d.file_type
    process_level := d.process_level, search_data := d.search_data, source_url := p }

/-- The per-document loop of prep_documents (ingest.py lines 105-122),
with the two output groups threaded as accumulators in input order. -/
def prepLoop (isURL isLocal : String → Bool) :
    List Document → List IngestRemoteDocument → List Document →
    Except String (List IngestRemoteDocument × List Document)
  | [], remotes, locals => .ok (remotes, locals)
  | d :: ds, remotes, locals =>
    match d.file_path with
    | none => .error "Each document must have a file_path attribute."
    | some p =>
      if isURL p then prepLoop isURL isLocal ds (remotes ++ [toRemoteDocument d p]) locals
      else if isLocal p then prepLoop isURL isLocal ds remotes (locals ++ [d])
      else .error ("Invalid file path: " ++ p)

/-- prep_documents (ingest.py lines 79-124). -/
def prep_documents (isURL isLocal : String → Bool) (documents : List Document) :
    Except String (List IngestRemoteDocument × List Document) :=
  if documents.isEmpty then .error "No documents provided for ingestion."
  else prepLoop isURL isLocal documents [] []

/-- A document that classification accepts: it has a file path that is a
valid URL or a valid local path. -/
def docValid (isURL isLocal : String → Bool) (d : Document) : Bool :=
  match d.file_path with
  | none => false
  | some p => isURL p || isLocal p

/-- The remote record that a document contributes, if any. -/
def remoteOf (isURL : String → Bool) (d : Document) : Option IngestRemoteDocument :=
  match d.file_path with
  | none => none
  | some p => if isURL p then some (toRemoteDocument d p) else none

/-- Whether a document lands in the local group. -/
def localOf (isURL isLocal : String → Bool) (d : Document) : Bool :=
  match d.file_path with
  | none => false
  | some p => !isURL p && isLocal p

/-! ## Local-document processing and the non-monitored ingest path
(ingest.py lines 194-278 with wait_for_complete false, and _process_local,
lines 407-444)

The external collaborators of this path are bundled in an environment:
the classification oracles, the splitter (split_doc applied to the
expanded path, returning the fragment files), and the uploader (the
canonical URL _upload_file returns for a fragment path). -/

/-- A local file handed to the uploader by _process_local: its path, its
basename and its suffix. -/
structure SplitFile where
  path : String
  name : String
  suffix : String
deriving DecidableEq

structure Env where
  isValidUrl : String → Bool
  isValidLocalPath : String → Bool
  splitDoc : String → List SplitFile
  uploadUrl : String → String

/-- External actions of the ingest path that the claims talk about: a
binary upload of one file and a registration call for a batch. -/
inductive IngestEvent where
  | upload (path : String)
  | register (docs : List IngestRemoteDocument)
deriving DecidableEq

/-- The body of _process_local for one local document (ingest.py lines
415-443): split, upload each fragment, and build one registration record
per fragment.  The file-name override applies only when there is a single
fragment and the document carries a truthy (nonempty) file_name. -/
def processLocalDoc (env : Env) (d : Document) :
    List IngestRemoteDocument × List IngestEvent :=
  let splits := env.splitDoc (d.file_path.getD "")
  (splits.map (fun sd =>
      let url := env.uploadUrl sd.path
      let ft : Option String :=
        match lookupAlias sd.suffix.toLower with
        | some a => some a
        | none => d.file_type
      let fn : String :=
        match d.file_name with
        | some s => if splits.length = 1 ∧ s ≠ "" then s else sd.name
        | none => sd.name
      { bucket_id := d.bucket_id, file_name := some fn, file_type := ft
        process_level := d.process_level, search_data := d.search_data
        source_url := url }),
   splits.map (fun sd => .upload sd.path))

/-- _process_local over a list of local documents, accumulating the
registration records and the upload events in order. -/
def processLocal (env : Env) : List Document → List IngestRemoteDocument × List IngestEvent
  | [] => ([], [])
  | d :: ds =>
    let (r, e) := processLocalDoc env d
    let (rs, es) := processLocal env ds
    (r ++ rs, e ++ es)

/-- The non-monitored ingest path (ingest.py lines 194-278 with
wait_for_complete false): classify, reject zero or more than
MAX_BATCH_SIZE usable documents, upload the local documents, then issue a
single registration call.  Returns the external events performed in order
and the raised error message, if any. -/
def ingest_non_monitored (env : Env) (documents : List Document) :
    List IngestEvent × Option String :=
  match prep_documents env.isValidUrl env.isValidLocalPath documents with
  | .error e => ([], some e)
  | .ok (remote, locals) =>
    if remote.length + locals.length = 0 then
      ([], some "No valid documents were provided")
    else if remote.length + locals.length > MAX_BATCH_SIZE then
      ([], some "You have sent too many documents in this request")
    else
      let (up, events) := processLocal env locals
      (events ++ [.register (remote ++ up)], none)

/-! ## Uploader (_upload_file, ingest.py lines 369-405)

The presigned descriptor returned by the upload endpoint carries the
upload URL, optional headers (string or list of strings, the first element
taken when a list) and an optional method defaulting to PUT.  The file
read and the PUT response are oracles. -/

inductive HeaderValue where
  | str (s : String)
  | vals (l : List String)
deriving DecidableEq

structure PresignedInfo where
  url : String
  header : List (String × HeaderValue) := []
  method : Option String := none
deriving DecidableEq

/-- Python str.upper restricted to the ASCII range, which is all the
source compares against. -/
def pyUpper (s : String) : String := String.mk (s.data.map Char.toUpper)

/-- The method actually dispatched on (ingest.py line 383). -/
def usedMethod (info : PresignedInfo) : String := pyUpper (info.method.getD "PUT")

/-- Header normalization (ingest.py lines 385-387): a list value is
replaced by its first element; Python raises IndexError on an empty
list. -/
def normalizeHeaderValue : HeaderValue → Except String String
  | .str s => .ok s
  | .vals [] => .error "list index out of range"
  | .vals (x :: _) => .ok x

def normalizeHeaders : List (String × HeaderValue) → Except String (List (String × String))
  | [] => .ok []
  | (k, v) :: rest =>
    match normalizeHeaderValue v with
    | .error e => .error e
    | .ok s =>
      match normalizeHeaders rest with
      | .error e => .error e
      | .ok tl => .ok ((k, s) :: tl)

/-- strip_query_params (ingest.py lines 71-77): urlunparse of the parsed
URL with params, query and fragment dropped.  Modelled on the textual URL:
everything from the first question mark or hash is removed. -/
def strip_query_params (url : String) : String :=
  (((url.splitOn "?").headD url).splitOn "#").headD url

/-- One binary transfer request. -/
structure PutRequest where
  url : String
  headers : List (String × String)
deriving DecidableEq

/-- _upload_file after the presign call (ingest.py lines 381-405): header
normalization, file read, method dispatch, transfer, status check.
fileRead is the result of reading the file, putStatus and putBody the
response of the PUT oracle.  Returns the result (canonical URL or raised
error) together with the list of transfer requests issued. -/
def uploadAfterPresign (info : PresignedInfo) (fileRead : Except String (List Nat))
    (putStatus : Nat) (putBody : String) :
    Except String String × List PutRequest :=
  match normalizeHeaders info.header with
  | .error e => (.error e, [])
  | .ok hdrs =>
    match fileRead with
    | .error e => (.error ("Error reading file: " ++ e), [])
    | .ok _ =>
      if usedMethod info = "PUT" then
        let req : PutRequest := { url := info.url, headers := hdrs }
        if putStatus = 200 ∨ putStatus = 201 then
          (.ok (strip_query_params info.url), [req])
        else
          (.error ("Upload failed: " ++ toString putStatus ++ " - " ++ putBody), [req])
      else
        (.error ("Unsupported HTTP method: " ++ usedMethod info), [])

/-! ## Ingestion monitor (_monitor_batch, ingest.py lines 446-491)

The monitor scans four progress sub-groups per poll and counts each
document identifier at most once across the whole monitored call, using
the completed_files set.  Progress arithmetic uses rationals (the Python
floats take only multiples of 0.25 here). -/

def terminalStatuses : List String := ["complete", "error", "cancelled"]

structure DocEntry where
  document_id : String
  status : String
deriving DecidableEq

structure ProgressGroup where
  documents : Option (List DocEntry) := none
deriving DecidableEq

structure IngestProgress where
  processing : Option ProgressGroup := none
  complete : Option ProgressGroup := none
  cancelled : Option ProgressGroup := none
  errors : Option ProgressGroup := none
deriving DecidableEq

structure IngestResponseIngest where
  process_id : String
  status : String
  progress : Option IngestProgress := none
deriving DecidableEq

structure IngestResponse where
  ingest : IngestResponseIngest
deriving DecidableEq

/-- The monitor state threaded through one monitored call: the
completed_files set (as a duplicate-free list), the progress counter and
the cumulative amount reported to the progress bar. -/
structure MonitorState where
  completed_files : List String
  progress : Rat
  pbar : Rat
deriving DecidableEq

/-- Handling of one listed per-document entry (ingest.py lines 464-467 and
the three identical blocks below it): a terminal, not yet recorded
document identifier is recorded and contributes one 0.75 increment. -/
def processEntry (st : MonitorState) (doc : DocEntry) : MonitorState :=
  if doc.status ∈ terminalStatuses ∧ ¬ doc.document_id ∈ st.completed_files then
    { completed_files := doc.document_id :: st.completed_files
      progress := st.progress - 3/4
      pbar := st.pbar + 3/4 }
  else st

def processGroup (st : MonitorState) : Option ProgressGroup → MonitorState
  | none => st
  | some g =>
    match g.documents with
    | none => st
    | some ds => ds.foldl processEntry st

/-- Handling of one progress snapshot (ingest.py lines 461-485): the four
sub-groups scanned in source order. -/
def processSnapshot (st : MonitorState) : Option IngestProgress → MonitorState
  | none => st
  | some p =>
    processGroup (processGroup (processGroup (processGroup st p.processing)
      p.complete) p.cancelled) p.errors

/-- The per-document entries listed by a snapshot, in scan order. -/
def groupEntries : Option ProgressGroup → List DocEntry
  | none => []
  | some g => (g.documents).getD []

def snapshotEntries : Option IngestProgress → List DocEntry
  | none => []
  | some p =>
    groupEntries p.processing ++ groupEntries p.complete ++
      groupEntries p.cancelled ++ groupEntries p.errors

/-- The polling loop of _monitor_batch (ingest.py lines 454-485): while
the job status is not terminal, sleep, poll, and scan the returned
snapshot.  polls is the stream of responses of the status endpoint; none
models a call that never observes a terminal status within the supplied
stream.  Returns the final response, the final state and the number of
polls issued (each poll is preceded by exactly one sleep). -/
def monitorLoop (polls : List IngestResponse) (ing : IngestResponse)
    (st : MonitorState) : Option (IngestResponse × MonitorState × Nat) :=
  if ing.ingest.status ∈ terminalStatuses then some (ing, st, 0)
  else
    match polls with
    | [] => none
    | p :: ps =>
      match monitorLoop ps p (processSnapshot st p.ingest.progress) with
      | none => none
      | some (i, s, k) => some (i, s, k + 1)

/-- _monitor_batch (ingest.py lines 446-491): run the polling loop from an
empty completed_files set, then raise on a terminal failure status and
otherwise return the final response and progress counter. -/
def monitorBatch (polls : List IngestResponse) (ing : IngestResponse) (progress : Rat) :
    Option (Except String (IngestResponse × Rat) × Nat) :=
  match monitorLoop polls ing { completed_files := [], progress := progress, pbar := 0 } with
  | none => none
  | some (i, st, k) =>
    some
      (if i.ingest.status = "error" ∨ i.ingest.status = "cancelled" then
        .error ("Ingest failed with status: " ++ i.ingest.status)
      else .ok (i, st.progress), k)

/-! ## Directory batch upload (_upload_file_batch, ingest.py lines 493-531) -/

/-- The Document records built by _upload_file_batch for one dispatched
batch (ingest.py lines 501-522): one record per file, carrying the
canonical upload URL as its file path, with the suffix alias applied to
the declared type when one matches. -/
def uploadFileBatchDocs (uploadUrl : String → String) (bucketId : Int)
    (batch : List DirFile) : List Document :=
  batch.map (fun file =>
    let url := uploadUrl file.path
    match lookupAlias file.suffix.toLower with
    | some a =>
      { bucket_id := some bucketId, file_name := some file.name
        file_path := some url, file_type := some a }
    | none =>
      { bucket_id := some bucketId, file_name := some file.name
        file_path := some url })

/-! ## Chunking lemmas -/

theorem chunksAux_flatten {α : Type} (c : Nat) (hc : 1 ≤ c) :
    ∀ (fuel : Nat) (l : List α), l.length ≤ fuel → (chunksAux c fuel l).flatten = l := by
  intro fuel
  induction fuel with
  | zero =>
    intro l hl
    cases l with
    | nil => rfl
    | cons x xs => simp at hl
  | succ n ih =>
    intro l hl
    cases l with
    | nil => rfl
    | cons x xs =>
      have hb : ((x :: xs).drop c).length ≤ n := by
        simp only [List.length_drop, List.length_cons]
        simp only [List.length_cons] at hl
        omega
      simp only [chunksAux, List.flatten_cons]
      rw [ih ((x :: xs).drop c) hb]
      exact List.take_append_drop c (x :: xs)

theorem chunksAux_mem_length {α : Type} (c : Nat) (hc : 1 ≤ c) :
    ∀ (fuel : Nat) (l : List α), l.length ≤ fuel →
      ∀ ch ∈ chunksAux c fuel l, ch.length ≤ c := by
  intro fuel
  induction fuel with
  | zero =>
    intro l hl ch hch
    cases l with
    | nil => simp [chunksAux] at hch
    | cons x xs => simp at hl
  | succ n ih =>
    intro l hl ch hch
    cases l with
    | nil => simp [chunksAux] at hch
    | cons x xs =>
      have hb : ((x :: xs).drop c).length ≤ n := by
        simp only [List.length_drop, List.length_cons]
        simp only [List.length_cons] at hl
        omega
      simp only [chunksAux, List.mem_cons] at hch
      rcases hch with h | h
      · subst h
        simp [List.length_take]
      · exact ih ((x :: xs).drop c) hb ch h

theorem chunksAux_length {α : Type} (c : Nat) (hc : 1 ≤ c) :
    ∀ (fuel : Nat) (l : List α), l.length ≤ fuel →
      (chunksAux c fuel l).length = (l.length + c - 1) / c := by
  intro fuel
  induction fuel with
  | zero =>
    intro l hl
    cases l with
    | nil =>
      simp only [chunksAux, List.length_nil]
      exact (Nat.div_eq_of_lt (by omega)).symm
    | cons x xs => simp at hl
  | succ n ih =>
    intro l hl
    cases l with
    | nil =>
      simp only [chunksAux, List.length_nil]
      exact (Nat.div_eq_of_lt (by omega)).symm
    | cons x xs =>
      have hb : ((x :: xs).drop c).length ≤ n := by
        simp only [List.length_drop, List.length_cons]
        simp only [List.length_cons] at hl
        omega
      simp only [chunksAux, List.length_cons]
      rw [ih ((x :: xs).drop c) hb]
      simp only [List.length_drop, List.length_cons]
      have key : (xs.length + 1 + c - 1) / c = (xs.length + 1 - 1) / c + 1 := by
        have h1 : xs.length + 1 + c - 1 = (xs.length + 1 - 1) + c := by omega
        rw [h1, Nat.add_div_right _ (by omega)]
      rw [key]
      by_cases hle : c ≤ xs.length + 1
      · have h2 : xs.length + 1 - c + c - 1 = xs.length + 1 - 1 := by omega
        rw [h2]
      · have h2 : xs.length + 1 - c = 0 := by omega
        rw [h2]
        have h3 : (0 + c - 1) / c = 0 := Nat.div_eq_of_lt (by omega)
        have h4 : (xs.length + 1 - 1) / c = 0 := Nat.div_eq_of_lt (by omega)
        omega

theorem chunksAux_dropLast_length {α : Type} (c : Nat) (hc : 1 ≤ c) :
    ∀ (fuel : Nat) (l : List α), l.length ≤ fuel →
      ∀ ch ∈ (chunksAux c fuel l).dropLast, ch.length = c := by
  intro fuel
  induction fuel with
  | zero =>
    intro l hl ch hch
    cases l with
    | nil => simp [chunksAux] at hch
    | cons x xs => simp at hl
  | succ n ih =>
    intro l hl ch hch
    cases l with
    | nil => simp [chunksAux] at hch
    | cons x xs =>
      have hb : ((x :: xs).drop c).length ≤ n := by
        simp only [List.length_drop, List.length_cons]
        simp only [List.length_cons] at hl
        omega
      simp only [chunksAux] at hch
      rcases hrest : chunksAux c n ((x :: xs).drop c) with _ | ⟨r, rs⟩
      · rw [hrest] at hch
        simp at hch
      · rw [hrest] at hch
        rw [List.dropLast_cons_of_ne_nil (by simp)] at hch
        rcases List.mem_cons.mp hch with h | h
        · subst h
          have hdrop : (x :: xs).drop c ≠ [] := by
            intro hnil
            rw [hnil] at hrest
            simp [chunksAux] at hrest
          have hlt : c < (x :: xs).length := by
            by_contra hge
            push_neg at hge
            exact hdrop (List.drop_eq_nil_of_le hge)
          simp only [List.length_take, List.length_cons]
          simp only [List.length_cons] at hlt
          omega
        · rw [← hrest] at h
          exact ih ((x :: xs).drop c) hb ch h

/-! ## numberFragments lemmas -/

theorem numberFragments_map_tail (header : List String) (dir stem : String) :
    ∀ (n : Nat) (cs : List (List (List String))),
      (numberFragments header dir stem n cs).map (fun f => f.content.tail) = cs := by
  intro n cs
  induction cs generalizing n with
  | nil => rfl
  | cons c cs ih => simp [numberFragments, ih]

theorem numberFragments_length (header : List String) (dir stem : String) :
    ∀ (n : Nat) (cs : List (List (List String))),
      (numberFragments header dir stem n cs).length = cs.length := by
  intro n cs
  induction cs generalizing n with
  | nil => rfl
  | cons c cs ih => simp [numberFragments, ih]

theorem numberFragments_mem (header : List String) (dir stem : String) :
    ∀ (n : Nat) (cs : List (List (List String))) (f : Fragment),
      f ∈ numberFragments header dir stem n cs →
        ∃ c ∈ cs, f.content = header :: c := by
  intro n cs
  induction cs generalizing n with
  | nil => intro f hf; simp [numberFragments] at hf
  | cons c cs ih =>
    intro f hf
    simp only [numberFragments, List.mem_cons] at hf
    rcases hf with h | h
    · exact ⟨c, by simp, by rw [h]⟩
    · obtain ⟨c', hc', hf'⟩ := ih (n + 1) f h
      exact ⟨c', by simp [hc'], hf'⟩

theorem numberFragments_get (header : List String) (dir stem : String) :
    ∀ (cs : List (List (List String))) (n i : Nat)
      (hi : i < (numberFragments header dir stem n cs).length),
      ((numberFragments header dir stem n cs).get ⟨i, hi⟩).path =
        dir ++ "/" ++ fragmentName stem (n + i) := by
  intro cs
  induction cs with
  | nil => intro n i hi; simp [numberFragments] at hi
  | cons c cs ih =>
    intro n i hi
    cases i with
    | zero => simp [numberFragments]
    | succ j =>
      have hj : j < (numberFragments header dir stem (n + 1) cs).length := by
        have hcopy : j + 1 < (numberFragments header dir stem n (c :: cs)).length := hi
        rw [numberFragments_length] at hcopy
        rw [numberFragments_length]
        simp only [List.length_cons] at hcopy
        omega
      have hrec := ih (n + 1) j hj
      have harith : n + 1 + j = n + (j + 1) := by omega
      rw [harith] at hrec
      simp only [numberFragments, List.get_cons_succ]
      exact hrec

theorem numberFragments_mem_dropLast (header : List String) (dir stem : String) :
    ∀ (n : Nat) (cs : List (List (List String))) (f : Fragment),
      f ∈ (numberFragments header dir stem n cs).dropLast →
        ∃ c ∈ cs.dropLast, f.content = header :: c := by
  intro n cs
  induction cs generalizing n with
  | nil => intro f hf; simp [numberFragments] at hf
  | cons c cs ih =>
    cases cs with
    | nil =>
      intro f hf
      simp [numberFragments] at hf
    | cons c2 cs2 =>
      intro f hf
      have hne : numberFragments header dir stem (n + 1) (c2 :: cs2) ≠ [] := by
        intro h
        have hl := numberFragments_length header dir stem (n + 1) (c2 :: cs2)
        rw [h] at hl
        simp at hl
      have hunf : numberFragments header dir stem n (c :: c2 :: cs2) =
          ⟨dir ++ "/" ++ fragmentName stem n, header :: c⟩ ::
            numberFragments header dir stem (n + 1) (c2 :: cs2) := rfl
      rw [hunf, List.dropLast_cons_of_ne_nil hne] at hf
      rcases List.mem_cons.mp hf with h | h
      · refine ⟨c, ?_, by rw [h]⟩
        rw [List.dropLast_cons_of_ne_nil (by simp)]
        simp
      · obtain ⟨c', hc', hf'⟩ := ih (n + 1) f h
        refine ⟨c', ?_, hf'⟩
        rw [List.dropLast_cons_of_ne_nil (by simp)]
        simp [hc']

/-! ## Claim C3 -/

/-- Claim C3: splitter round trip.  Whenever the computed split factor k is
at least 2, split produces fragments that each begin with the header, each
hold at most ceil(R/k) data rows, and whose data rows concatenated in order
are exactly the original rows; in the instance R = 2500, size = 524288
bytes (0.5 MiB) the factor is 3, the per-fragment bound is
ceil(2500/3) = 834, there are exactly 3 fragments, and every fragment but
the last holds exactly 834 rows (so the last is shorter). -/
theorem c3_splitter_round_trip (df : DelimFile) (dir : String)
    (hk : 2 ≤ determine_splits df) :
    ∃ fs, split df dir = .fragments fs
      ∧ (∀ f ∈ fs, ∃ rest, f.content = df.header :: rest
            ∧ rest.length ≤ ceilDiv df.rows.length (determine_splits df))
      ∧ (fs.map (fun f => f.content.tail)).flatten = df.rows
      ∧ (df.rows.length = 2500 → df.size = 524288 →
          determine_splits df = 3
            ∧ ceilDiv df.rows.length (determine_splits df) = 834
            ∧ fs.length = 3
            ∧ ∀ f ∈ fs.dropLast, ∃ rest, f.content = df.header :: rest
                ∧ rest.length = 834) := by
  have hrpf : df.rows ≠ [] → 1 ≤ ceilDiv df.rows.length (determine_splits df) := by
    intro hne
    have hlen : 1 ≤ df.rows.length := by
      cases h : df.rows with
      | nil => exact absurd h hne
      | cons a l => simp [h]
    unfold ceilDiv
    rw [Nat.one_le_div_iff (by omega)]
    omega
  refine ⟨numberFragments df.header dir df.stem 1
      (chunksOf (ceilDiv df.rows.length (determine_splits df)) df.rows), ?_, ?_, ?_, ?_⟩
  · simp only [split]
    rw [if_neg (by omega)]
  · intro f hf
    obtain ⟨c, hc, hcont⟩ := numberFragments_mem df.header dir df.stem 1 _ f hf
    refine ⟨c, hcont, ?_⟩
    by_cases hrows : df.rows = []
    · rw [hrows] at hc
      simp [chunksOf, chunksAux] at hc
    · exact chunksAux_mem_length _ (hrpf hrows) _ _ (le_refl _) c hc
  · rw [numberFragments_map_tail]
    by_cases hrows : df.rows = []
    · rw [hrows]
      simp [chunksOf, chunksAux]
    · exact chunksAux_flatten _ (hrpf hrows) _ _ (le_refl _)
  · intro h1 h2
    have hne : df.rows ≠ [] := by
      intro h
      rw [h] at h1
      simp at h1
    have hk3 : determine_splits df = 3 := by
      simp only [determine_splits]
      rw [h1, h2]
      decide
    have hrpf834 : ceilDiv df.rows.length (determine_splits df) = 834 := by
      rw [hk3, h1]
      decide
    refine ⟨hk3, hrpf834, ?_, ?_⟩
    · rw [numberFragments_length]
      simp only [chunksOf]
      rw [chunksAux_length _ (by rw [hrpf834]; omega) _ _ (le_refl _), hrpf834, h1]
    · intro f hf
      obtain ⟨c, hc, hcont⟩ := numberFragments_mem_dropLast df.header dir df.stem 1 _ f hf
      refine ⟨c, hcont, ?_⟩
      simp only [chunksOf] at hc
      have := chunksAux_dropLast_length _ (by rw [hrpf834]; omega) _ df.rows (le_refl _) c hc
      rw [hrpf834] at this
      exact this

def dfC3 : DelimFile :=
  { stem := "data", ext := ".csv", header := ["h"]
    rows := List.replicate 2500 [], size := 524288 }

theorem c3_splitter_round_trip_witness :
    2 ≤ determine_splits dfC3 ∧
      (∃ fs, split dfC3 "/tmp" = .fragments fs
        ∧ (∀ f ∈ fs, ∃ rest, f.content = dfC3.header :: rest
              ∧ rest.length ≤ ceilDiv dfC3.rows.length (determine_splits dfC3))
        ∧ (fs.map (fun f => f.content.tail)).flatten = dfC3.rows
        ∧ (dfC3.rows.length = 2500 → dfC3.size = 524288 →
            determine_splits dfC3 = 3
              ∧ ceilDiv dfC3.rows.length (determine_splits dfC3) = 834
              ∧ fs.length = 3
              ∧ ∀ f ∈ fs.dropLast, ∃ rest, f.content = dfC3.header :: rest
                  ∧ rest.length = 834)) :=
  ⟨by norm_num [dfC3, determine_splits], c3_splitter_round_trip dfC3 "/tmp"
    (by norm_num [dfC3, determine_splits])⟩

/-! ## Claim C5 -/

/-- Claim C5 counterexample: a delimited file with exactly one header line
and nothing else can still have split factor 2 when its single line is one
megabyte long (int(size/1024/1024) + 1 = 2), and split then returns an
empty fragment list instead of the original file path. -/
def dfBigHeader : DelimFile :=
  { stem := "data", ext := ".csv", header := ["h"], rows := [], size := 1048576 }

theorem c5_counterexample :
    dfBigHeader.rows = [] ∧ determine_splits dfBigHeader ≠ 1
      ∧ split dfBigHeader "/tmp" ≠ .original := by
  decide

/-- Claim C5 (amended): for every delimited file with zero data rows AND
size below one mebibyte, the split factor is 1 and split returns the
original file path as the sole output. -/
theorem c5_zero_rows_no_split (df : DelimFile) (dir : String)
    (hrows : df.rows = []) (hsize : df.size < 1048576) :
    determine_splits df = 1 ∧ split df dir = .original := by
  have h1 : determine_splits df = 1 := by
    simp only [determine_splits]
    rw [hrows]
    simp only [List.length_nil]
    rw [Nat.div_div_eq_div_mul]
    have hz : df.size / (1024 * 1024) = 0 := Nat.div_eq_of_lt (by omega)
    rw [hz]
    decide
  refine ⟨h1, ?_⟩
  simp only [split]
  rw [h1]
  simp

def dfC5 : DelimFile :=
  { stem := "data", ext := ".csv", header := ["h"], rows := [], size := 100 }

theorem c5_zero_rows_no_split_witness :
    dfC5.rows = [] ∧ dfC5.size < 1048576
      ∧ determine_splits dfC5 = 1 ∧ split dfC5 "/tmp" = .original :=
  ⟨rfl, by decide, (c5_zero_rows_no_split dfC5 "/tmp" rfl (by decide)).1,
    (c5_zero_rows_no_split dfC5 "/tmp" rfl (by decide)).2⟩

/-! ## Claim C7 -/

/-- Claim C7 counterexample: splitting a file whose original extension is
".tsv" produces a first fragment named data_1.csv, not data_1.tsv — the
fragment extension is the hardcoded ".csv" of csv_splitter.py line 48, not
the extension of the original file. -/
def dfTsv : DelimFile :=
  { stem := "data", ext := ".tsv", header := ["a"], rows := [["x"]], size := 1048576 }

theorem c7_counterexample :
    dfTsv.ext = ".tsv"
      ∧ split dfTsv "/tmp" = .fragments [⟨"/tmp/data_1.csv", [["a"], ["x"]]⟩]
      ∧ ("/tmp/data_1.csv" : String) ≠
          "/tmp" ++ "/" ++ dfTsv.stem ++ "_" ++ toString 1 ++ dfTsv.ext := by
  decide

/-- Claim C7 (amended): whenever the splitter splits (factor at least 2),
it returns an ordered sequence of paths inside the scratch directory,
sequentially numbered from 1 and named stem_n.csv — the extension is
always the literal ".csv", regardless of the original file extension. -/
theorem c7_fragment_naming (df : DelimFile) (dir : String)
    (hk : 2 ≤ determine_splits df) :
    ∃ fs, split df dir = .fragments fs
      ∧ ∀ i (hi : i < fs.length),
          (fs.get ⟨i, hi⟩).path = dir ++ "/" ++ fragmentName df.stem (i + 1) := by
  refine ⟨numberFragments df.header dir df.stem 1
      (chunksOf (ceilDiv df.rows.length (determine_splits df)) df.rows), ?_, ?_⟩
  · simp only [split]
    rw [if_neg (by omega)]
  · intro i hi
    have h := numberFragments_get df.header dir df.stem _ 1 i hi
    rw [Nat.add_comm 1 i] at h
    exact h

theorem c7_fragment_naming_witness :
    2 ≤ determine_splits dfTsv ∧
      (∃ fs, split dfTsv "/tmp" = .fragments fs
        ∧ ∀ i (hi : i < fs.length),
            (fs.get ⟨i, hi⟩).path = "/tmp" ++ "/" ++ fragmentName dfTsv.stem (i + 1)) :=
  ⟨by decide, c7_fragment_naming dfTsv "/tmp" (by decide)⟩

/-! ## Batching lemmas and claims C1, C10 -/

theorem effective_batch_size_pos (b : Option Int) : 1 ≤ effective_batch_size b := by
  unfold effective_batch_size
  have h : (1 : Int) ≤ max (MIN_BATCH_SIZE : Int)
      (min (match b with
        | none => (MIN_BATCH_SIZE : Int)
        | some v => if v = 0 then (MIN_BATCH_SIZE : Int) else v)
      (MAX_BATCH_SIZE : Int)) := by
    have : ((MIN_BATCH_SIZE : Nat) : Int) = 1 := by decide
    rw [← this]
    exact le_max_left _ _
  omega

/-- The invariant of the batching loop: starting from a current batch that
respects both bounds and whose recorded size is accurate, every dispatched
batch respects both bounds, as long as no single input exceeds the byte
bound. -/
theorem batchLoop_bounds {α : Type} (size : α → Nat) (n maxBytes : Nat) (hn : 1 ≤ n) :
    ∀ (fs cur : List α) (cs : Nat),
      (∀ f ∈ fs, size f ≤ maxBytes) →
      cs = (cur.map size).sum → cs ≤ maxBytes → cur.length ≤ n →
      ∀ b ∈ batchLoop size n maxBytes fs cur cs,
        (b.map size).sum ≤ maxBytes ∧ b.length ≤ n := by
  intro fs
  induction fs with
  | nil =>
    intro cur cs hsz hacc hle hlen b hb
    simp only [batchLoop] at hb
    rcases h : cur.isEmpty with _ | _
    · rw [h] at hb
      simp at hb
      subst hb
      rw [← hacc]
      exact ⟨hle, hlen⟩
    · rw [h] at hb
      simp at hb
  | cons f fs ih =>
    intro cur cs hsz hacc hle hlen b hb
    simp only [batchLoop] at hb
    by_cases hcond : cs + size f > maxBytes ∨ cur.length ≥ n
    · rw [if_pos hcond] at hb
      rcases List.mem_cons.mp hb with h | h
      · subst h
        rw [← hacc]
        exact ⟨hle, hlen⟩
      · refine ih [f] (size f) (fun g hg => hsz g (by simp [hg])) (by simp) ?_ (by simpa using hn) b h
        exact hsz f (by simp)
    · rw [if_neg hcond] at hb
      push_neg at hcond
      refine ih (cur ++ [f]) (cs + size f)
        (fun g hg => hsz g (by simp [hg])) ?_ hcond.1 ?_ b hb
      · rw [hacc]
        simp
      · simp only [List.length_append, List.length_cons, List.length_nil]
        omega

/-- Concatenating the dispatched batches gives back the input sequence,
whatever the bounds are. -/
theorem batchLoop_flatten {α : Type} (size : α → Nat) (n maxBytes : Nat) :
    ∀ (fs cur : List α) (cs : Nat),
      (batchLoop size n maxBytes fs cur cs).flatten = cur ++ fs := by
  intro fs
  induction fs with
  | nil =>
    intro cur cs
    simp only [batchLoop]
    rcases h : cur.isEmpty with _ | _
    · simp
    · rw [List.isEmpty_iff] at h
      subst h
      simp
  | cons f fs ih =>
    intro cur cs
    simp only [batchLoop]
    by_cases hcond : cs + size f > maxBytes ∨ cur.length ≥ n
    · rw [if_pos hcond]
      simp only [List.flatten_cons]
      rw [ih]
      simp
    · rw [if_neg hcond]
      rw [ih]
      simp

/-- Claim C1 counterexample: with the default batch size 10, a single
52428801-byte file (one byte over MAX_BATCH_SIZE_BYTES) is dispatched by
the batching loop of ingest_directory in a batch whose cumulative size
exceeds MAX_BATCH_SIZE_BYTES. -/
def bigFile : DirFile :=
  { path := "/d/big.pdf", name := "big.pdf", suffix := ".pdf", size := 52428801 }

theorem c1_counterexample :
    ∃ b ∈ dispatched_batches (effective_batch_size (some 10)) [bigFile],
      MAX_BATCH_SIZE_BYTES < (b.map DirFile.size).sum := by
  refine ⟨[bigFile], ?_, ?_⟩
  · decide
  · decide

/-- Claim C1 (amended): provided every individual file size is at most
MAX_BATCH_SIZE_BYTES, every batch dispatched by the batching loop (the
local-batch loop of synchronous ingest and the loop of ingest_directory
share this loop) has cumulative byte size at most MAX_BATCH_SIZE_BYTES and
count at most the effective batch size
clamp(requested, MIN_BATCH_SIZE, MAX_BATCH_SIZE).  The size hypothesis is
forced by the counterexample: a single file above the byte bound is
dispatched in an oversize singleton batch. -/
theorem c1_batch_sealing_bounds (batchSize : Option Int) (files : List DirFile)
    (hsz : ∀ f ∈ files, f.size ≤ MAX_BATCH_SIZE_BYTES) :
    ∀ b ∈ dispatched_batches (effective_batch_size batchSize) files,
      (b.map DirFile.size).sum ≤ MAX_BATCH_SIZE_BYTES
        ∧ b.length ≤ effective_batch_size batchSize := by
  intro b hb
  exact batchLoop_bounds DirFile.size (effective_batch_size batchSize)
    MAX_BATCH_SIZE_BYTES (effective_batch_size_pos batchSize) files [] 0
    (fun f hf => hsz f hf) (by simp) (by simp [MAX_BATCH_SIZE_BYTES]) (by simp) b hb

def smallFileA : DirFile :=
  { path := "/d/a.pdf", name := "a.pdf", suffix := ".pdf", size := 30000000 }

def smallFileB : DirFile :=
  { path := "/d/b.pdf", name := "b.pdf", suffix := ".pdf", size := 30000000 }

theorem c1_batch_sealing_bounds_witness :
    (∀ f ∈ [smallFileA, smallFileB], f.size ≤ MAX_BATCH_SIZE_BYTES)
      ∧ ∀ b ∈ dispatched_batches (effective_batch_size (some 10)) [smallFileA, smallFileB],
          (b.map DirFile.size).sum ≤ MAX_BATCH_SIZE_BYTES
            ∧ b.length ≤ effective_batch_size (some 10) :=
  ⟨by decide, c1_batch_sealing_bounds (some 10) [smallFileA, smallFileB] (by decide)⟩

/-- Claim C10: the batches dispatched to _upload_file_batch by
ingest_directory, concatenated in dispatch order, are exactly the
enumerated input files — nothing is lost, duplicated or reordered by the
count and byte-size sealing — and _upload_file_batch builds exactly one
registration record per file of its batch. -/
theorem c10_batching_lossless (n : Nat) (files : List DirFile)
    (uploadUrl : String → String) (bucketId : Int) :
    (dispatched_batches n files).flatten = files
      ∧ ∀ b ∈ dispatched_batches n files,
          (uploadFileBatchDocs uploadUrl bucketId b).length = b.length := by
  constructor
  · exact batchLoop_flatten DirFile.size n MAX_BATCH_SIZE_BYTES files [] 0
  · intro b _
    simp [uploadFileBatchDocs]

theorem c10_batching_lossless_witness :
    (dispatched_batches 1 [smallFileA, smallFileB, bigFile]).flatten
        = [smallFileA, smallFileB, bigFile]
      ∧ ∀ b ∈ dispatched_batches 1 [smallFileA, smallFileB, bigFile],
          (uploadFileBatchDocs (fun s => s) 7 b).length = b.length :=
  c10_batching_lossless 1 [smallFileA, smallFileB, bigFile] (fun s => s) 7

/-! ## Classifier lemmas and claim C4 -/

theorem prepLoop_nil (u l : String → Bool) (r0 : List IngestRemoteDocument)
    (l0 : List Document) : prepLoop u l [] r0 l0 = .ok (r0, l0) := rfl

theorem prepLoop_cons_none (u l : String → Bool) (d : Document) (ds : List Document)
    (r0 : List IngestRemoteDocument) (l0 : List Document) (hp : d.file_path = none) :
    prepLoop u l (d :: ds) r0 l0 =
      .error "Each document must have a file_path attribute." := by
  simp [prepLoop, hp]

theorem prepLoop_cons_url (u l : String → Bool) (d : Document) (ds : List Document)
    (r0 : List IngestRemoteDocument) (l0 : List Document) (p : String)
    (hp : d.file_path = some p) (hu : u p = true) :
    prepLoop u l (d :: ds) r0 l0 =
      prepLoop u l ds (r0 ++ [toRemoteDocument d p]) l0 := by
  simp [prepLoop, hp, hu]

theorem prepLoop_cons_local (u l : String → Bool) (d : Document) (ds : List Document)
    (r0 : List IngestRemoteDocument) (l0 : List Document) (p : String)
    (hp : d.file_path = some p) (hu : u p = false) (hl : l p = true) :
    prepLoop u l (d :: ds) r0 l0 = prepLoop u l ds r0 (l0 ++ [d]) := by
  simp [prepLoop, hp, hu, hl]

theorem prepLoop_cons_bad (u l : String → Bool) (d : Document) (ds : List Document)
    (r0 : List IngestRemoteDocument) (l0 : List Document) (p : String)
    (hp : d.file_path = some p) (hu : u p = false) (hl : l p = false) :
    prepLoop u l (d :: ds) r0 l0 = .error ("Invalid file path: " ++ p) := by
  simp [prepLoop, hp, hu, hl]

theorem prepLoop_ok (u l : String → Bool) :
    ∀ (ds : List Document) (r0 : List IngestRemoteDocument) (l0 : List Document),
      (∀ d ∈ ds, docValid u l d = true) →
      prepLoop u l ds r0 l0 =
        .ok (r0 ++ ds.filterMap (remoteOf u), l0 ++ ds.filter (localOf u l)) := by
  intro ds
  induction ds with
  | nil => intro r0 l0 _; simp [prepLoop_nil]
  | cons d ds ih =>
    intro r0 l0 hv
    have hd := hv d (by simp)
    rcases hp : d.file_path with _ | p
    · simp [docValid, hp] at hd
    · rcases hu : u p with _ | _
      · have hl : l p = true := by
          simp [docValid, hp, hu] at hd
          exact hd
        rw [prepLoop_cons_local u l d ds r0 l0 p hp hu hl,
          ih r0 (l0 ++ [d]) (fun x hx => hv x (by simp [hx]))]
        simp [List.filterMap_cons, List.filter_cons, remoteOf, localOf, hp, hu, hl]
      · rw [prepLoop_cons_url u l d ds r0 l0 p hp hu,
          ih (r0 ++ [toRemoteDocument d p]) l0 (fun x hx => hv x (by simp [hx]))]
        simp [List.filterMap_cons, List.filter_cons, remoteOf, localOf, hp, hu]

theorem prepLoop_error_of_invalid (u l : String → Bool) :
    ∀ (ds : List Document) (r0 : List IngestRemoteDocument) (l0 : List Document),
      (∃ d ∈ ds, docValid u l d = false) →
      ∃ e, prepLoop u l ds r0 l0 = .error e := by
  intro ds
  induction ds with
  | nil =>
    intro r0 l0 h
    obtain ⟨d, hd, _⟩ := h
    simp at hd
  | cons d ds ih =>
    intro r0 l0 h
    obtain ⟨d', hd', hv⟩ := h
    rcases hp : d.file_path with _ | p
    · exact ⟨_, prepLoop_cons_none u l d ds r0 l0 hp⟩
    · rcases hu : u p with _ | _
      · rcases hl : l p with _ | _
        · exact ⟨_, prepLoop_cons_bad u l d ds r0 l0 p hp hu hl⟩
        · rw [prepLoop_cons_local u l d ds r0 l0 p hp hu hl]
          apply ih
          rcases List.mem_cons.mp hd' with heq | hmem
          · exfalso
            subst heq
            simp [docValid, hp, hu, hl] at hv
          · exact ⟨d', hmem, hv⟩
      · rw [prepLoop_cons_url u l d ds r0 l0 p hp hu]
        apply ih
        rcases List.mem_cons.mp hd' with heq | hmem
        · exfalso
          subst heq
          simp [docValid, hp, hu] at hv
        · exact ⟨d', hmem, hv⟩

theorem prepLoop_error_msg (u l : String → Bool) :
    ∀ (ds : List Document) (r0 : List IngestRemoteDocument) (l0 : List Document)
      (e : String), prepLoop u l ds r0 l0 = .error e →
      e = "Each document must have a file_path attribute."
        ∨ ∃ d ∈ ds, ∃ p, d.file_path = some p ∧ u p = false ∧ l p = false
            ∧ e = "Invalid file path: " ++ p := by
  intro ds
  induction ds with
  | nil =>
    intro r0 l0 e he
    rw [prepLoop_nil] at he
    exact absurd he (by simp)
  | cons d ds ih =>
    intro r0 l0 e he
    rcases hp : d.file_path with _ | p
    · rw [prepLoop_cons_none u l d ds r0 l0 hp] at he
      left
      injection he with hmsg
      exact hmsg.symm
    · rcases hu : u p with _ | _
      · rcases hl : l p with _ | _
        · rw [prepLoop_cons_bad u l d ds r0 l0 p hp hu hl] at he
          right
          refine ⟨d, by simp, p, hp, hu, hl, ?_⟩
          injection he with hmsg
          exact hmsg.symm
        · rw [prepLoop_cons_local u l d ds r0 l0 p hp hu hl] at he
          rcases ih r0 (l0 ++ [d]) e he with h | ⟨d', hd', hrest⟩
          · exact Or.inl h
          · exact Or.inr ⟨d', by simp [hd'], hrest⟩
      · rw [prepLoop_cons_url u l d ds r0 l0 p hp hu] at he
        rcases ih (r0 ++ [toRemoteDocument d p]) l0 e he with h | ⟨d', hd', hrest⟩
        · exact Or.inl h
        · exact Or.inr ⟨d', by simp [hd'], hrest⟩

theorem valid_length_sum (u l : String → Bool) :
    ∀ (ds : List Document), (∀ d ∈ ds, docValid u l d = true) →
      (ds.filterMap (remoteOf u)).length + (ds.filter (localOf u l)).length = ds.length := by
  intro ds
  induction ds with
  | nil => simp
  | cons d ds ih =>
    intro hv
    have hd := hv d (by simp)
    have htail := ih (fun x hx => hv x (by simp [hx]))
    rcases hp : d.file_path with _ | p
    · simp [docValid, hp] at hd
    · rcases hu : u p with _ | _
      · have hl : l p = true := by
          simp [docValid, hp, hu] at hd
          exact hd
        simp only [List.filterMap_cons, List.filter_cons, remoteOf, localOf, hp, hu, hl]
        simp only [Bool.not_false, Bool.true_and, if_pos]
        simp [htail]
        omega
      · simp only [List.filterMap_cons, List.filter_cons, remoteOf, localOf, hp, hu]
        simp [htail]
        omega

/-- Claim C4: classifier contract.  prep_documents fails exactly when the
input is empty, some document lacks a file path, or some file path
satisfies neither the URL oracle nor the local-path oracle; every error is
the empty-input message, the missing-attribute message, or an
invalid-path message naming an actual offending path; and on success the
result is a total partition in input order whose sizes sum to the input
length, with every remote record carrying the original path unchanged as
its source_url.  The URL test (urlparse with nonempty scheme and netloc)
and the filesystem test (os.path.exists after expanduser) are external and
enter as the boolean oracles u and l. -/
theorem c4_classifier (u l : String → Bool) (docs : List Document) :
    ((∃ e, prep_documents u l docs = .error e) ↔
        (docs = [] ∨ ∃ d ∈ docs, docValid u l d = false))
      ∧ (∀ e, prep_documents u l docs = .error e →
          e = "No documents provided for ingestion."
            ∨ e = "Each document must have a file_path attribute."
            ∨ ∃ d ∈ docs, ∃ p, d.file_path = some p ∧ u p = false ∧ l p = false
                ∧ e = "Invalid file path: " ++ p)
      ∧ (∀ r lo, prep_documents u l docs = .ok (r, lo) →
          r.length + lo.length = docs.length
            ∧ r = docs.filterMap (remoteOf u)
            ∧ lo = docs.filter (localOf u l)
            ∧ ∀ rd ∈ r, ∃ d ∈ docs, d.file_path = some rd.source_url) := by
  by_cases hemp : docs.isEmpty
  · rw [List.isEmpty_iff] at hemp
    subst hemp
    refine ⟨?_, ?_, ?_⟩
    · simp [prep_documents]
    · intro e he
      simp only [prep_documents, List.isEmpty_nil, if_true] at he
      left
      injection he with hmsg
      exact hmsg.symm
    · intro r lo hok
      simp [prep_documents] at hok
  · have hprep : prep_documents u l docs = prepLoop u l docs [] [] := by
      simp [prep_documents, hemp]
    have hne : docs ≠ [] := by
      intro h
      subst h
      simp at hemp
    refine ⟨?_, ?_, ?_⟩
    · rw [hprep]
      constructor
      · intro ⟨e, he⟩
        right
        by_contra hno
        push_neg at hno
        have hv : ∀ d ∈ docs, docValid u l d = true := by
          intro d hd
          have := hno d hd
          revert this
          cases docValid u l d <;> simp
        rw [prepLoop_ok u l docs [] [] hv] at he
        exact absurd he (by simp)
      · intro h
        rcases h with h | h
        · exact absurd h hne
        · exact prepLoop_error_of_invalid u l docs [] [] h
    · intro e he
      rw [hprep] at he
      rcases prepLoop_error_msg u l docs [] [] e he with h | h
      · exact Or.inr (Or.inl h)
      · exact Or.inr (Or.inr h)
    · intro r lo hok
      rw [hprep] at hok
      have hv : ∀ d ∈ docs, docValid u l d = true := by
        by_contra hno
        push_neg at hno
        obtain ⟨d, hd, hnv⟩ := hno
        have hfalse : docValid u l d = false := by
          revert hnv
          cases docValid u l d <;> simp
        obtain ⟨e, he⟩ := prepLoop_error_of_invalid u l docs [] [] ⟨d, hd, hfalse⟩
        rw [he] at hok
        exact absurd hok (by simp)
      rw [prepLoop_ok u l docs [] [] hv] at hok
      have hr : r = docs.filterMap (remoteOf u) := by
        have := (Except.ok.injEq _ _).mp hok
        have := congrArg Prod.fst this
        simpa using this.symm
      have hlo : lo = docs.filter (localOf u l) := by
        have := (Except.ok.injEq _ _).mp hok
        have := congrArg Prod.snd this
        simpa using this.symm
      refine ⟨?_, hr, hlo, ?_⟩
      · rw [hr, hlo]
        exact valid_length_sum u l docs hv
      · intro rd hrd
        rw [hr] at hrd
        obtain ⟨d, hd, hrm⟩ := List.mem_filterMap.mp hrd
        rcases hp : d.file_path with _ | p
        · simp [remoteOf, hp] at hrm
        · refine ⟨d, hd, ?_⟩
          rcases hu : u p with _ | _
          · simp [remoteOf, hp, hu] at hrm
          · simp only [remoteOf, hp, hu, if_pos] at hrm
            injection hrm with hinj
            rw [hp, ← hinj]
            rfl

def c4Doc1 : Document := { file_path := some "http://example.com/a.txt" }

def c4Doc2 : Document := { file_path := some "/tmp/b.txt" }

theorem c4_classifier_witness :
    ((∃ e, prep_documents (fun s => s == "http://example.com/a.txt")
          (fun s => s == "/tmp/b.txt") [c4Doc1, c4Doc2] = .error e) ↔
        ([c4Doc1, c4Doc2] = ([] : List Document)
          ∨ ∃ d ∈ [c4Doc1, c4Doc2],
              docValid (fun s => s == "http://example.com/a.txt")
                (fun s => s == "/tmp/b.txt") d = false))
      ∧ (∀ e, prep_documents (fun s => s == "http://example.com/a.txt")
            (fun s => s == "/tmp/b.txt") [c4Doc1, c4Doc2] = .error e →
          e = "No documents provided for ingestion."
            ∨ e = "Each document must have a file_path attribute."
            ∨ ∃ d ∈ [c4Doc1, c4Doc2], ∃ p, d.file_path = some p
                ∧ (fun s => s == "http://example.com/a.txt") p = false
                ∧ (fun s => s == "/tmp/b.txt") p = false
                ∧ e = "Invalid file path: " ++ p)
      ∧ (∀ r lo, prep_documents (fun s => s == "http://example.com/a.txt")
            (fun s => s == "/tmp/b.txt") [c4Doc1, c4Doc2] = .ok (r, lo) →
          r.length + lo.length = [c4Doc1, c4Doc2].length
            ∧ r = [c4Doc1, c4Doc2].filterMap
                (remoteOf (fun s => s == "http://example.com/a.txt"))
            ∧ lo = [c4Doc1, c4Doc2].filter
                (localOf (fun s => s == "http://example.com/a.txt")
                  (fun s => s == "/tmp/b.txt"))
            ∧ ∀ rd ∈ r, ∃ d ∈ [c4Doc1, c4Doc2], d.file_path = some rd.source_url) :=
  c4_classifier (fun s => s == "http://example.com/a.txt")
    (fun s => s == "/tmp/b.txt") [c4Doc1, c4Doc2]

deriving instance DecidableEq for Except

/-! ## Claim C6 -/

/-- Claim C6: too-many-documents guard with atomicity.  For every document
set whose classified remote plus local count exceeds MAX_BATCH_SIZE, the
non-monitored ingest call (wait_for_complete false) fails with the
validation error of ingest.py line 269 and performs no upload and no
registration: its event trace is empty. -/
theorem c6_too_many_guard (env : Env) (documents : List Document)
    (remote : List IngestRemoteDocument) (locals : List Document)
    (hprep : prep_documents env.isValidUrl env.isValidLocalPath documents
      = .ok (remote, locals))
    (hcount : MAX_BATCH_SIZE < remote.length + locals.length) :
    ingest_non_monitored env documents =
      ([], some "You have sent too many documents in this request") := by
  have h1 : ¬(remote.length + locals.length = 0) := by
    unfold MAX_BATCH_SIZE at hcount
    omega
  have h2 : remote.length + locals.length > MAX_BATCH_SIZE := hcount
  unfold ingest_non_monitored
  rw [hprep]
  simp [h1, h2]

def c6Doc : Document := { file_path := some "http://example.com/a.txt" }

def c6Env : Env :=
  { isValidUrl := fun _ => true, isValidLocalPath := fun _ => false
    splitDoc := fun _ => [], uploadUrl := fun s => s }

theorem c6_too_many_guard_witness :
    prep_documents c6Env.isValidUrl c6Env.isValidLocalPath (List.replicate 51 c6Doc)
        = .ok (List.replicate 51 (toRemoteDocument c6Doc "http://example.com/a.txt"), [])
      ∧ MAX_BATCH_SIZE <
          (List.replicate 51 (toRemoteDocument c6Doc "http://example.com/a.txt")).length
            + ([] : List Document).length
      ∧ ingest_non_monitored c6Env (List.replicate 51 c6Doc)
        = ([], some "You have sent too many documents in this request") :=
  ⟨by decide, by decide,
    c6_too_many_guard c6Env (List.replicate 51 c6Doc)
      (List.replicate 51 (toRemoteDocument c6Doc "http://example.com/a.txt")) []
      (by decide) (by decide)⟩

/-! ## Claim C8 -/

/-- Claim C8: unsupported upload method.  For every presigned descriptor
whose declared method, uppercased, is not PUT, the upload step issues no
binary transfer request at all, and — when header normalization and the
file read succeed, the only steps that precede the method dispatch — it
fails with the unsupported-method error naming the uppercased method.  A
descriptor that omits the Method key defaults to PUT. -/
theorem c8_unsupported_method (info : PresignedInfo)
    (fileRead : Except String (List Nat)) (st : Nat) (body : String) :
    (∀ m, info.method = some m → pyUpper m ≠ "PUT" →
        (uploadAfterPresign info fileRead st body).2 = []
          ∧ ∀ hdrs bytes, normalizeHeaders info.header = .ok hdrs →
              fileRead = .ok bytes →
              (uploadAfterPresign info fileRead st body).1
                = .error ("Unsupported HTTP method: " ++ pyUpper m))
      ∧ (info.method = none → usedMethod info = "PUT") := by
  constructor
  · intro m hm hne
    have hused : usedMethod info = pyUpper m := by
      simp [usedMethod, hm]
    constructor
    · unfold uploadAfterPresign
      rcases hh : normalizeHeaders info.header with e | hdrs
      · simp [hh]
      · rcases hf : fileRead with e2 | bytes
        · simp [hh, hf]
        · simp only [hh, hf]
          rw [if_neg (by rw [hused]; exact hne)]
    · intro hdrs bytes hh hf
      unfold uploadAfterPresign
      simp only [hh, hf]
      rw [if_neg (by rw [hused]; exact hne), hused]
  · intro hm
    simp [usedMethod, hm]
    decide

def c8Info : PresignedInfo :=
  { url := "https://bucket.example.com/up?sig=abc"
    header := [("Content-Type", .str "text/plain")], method := some "post" }

theorem c8_unsupported_method_witness :
    pyUpper "post" ≠ "PUT"
      ∧ normalizeHeaders c8Info.header = .ok [("Content-Type", "text/plain")]
      ∧ (uploadAfterPresign c8Info (.ok [104, 105]) 200 "").2 = []
      ∧ (uploadAfterPresign c8Info (.ok [104, 105]) 200 "").1
          = .error ("Unsupported HTTP method: " ++ pyUpper "post")
      ∧ (∀ m, ({ url := "u" } : PresignedInfo).method = some m → False)
      ∧ usedMethod { url := "u" } = "PUT" := by
  refine ⟨by decide, by decide, ?_, ?_, by intro m hm; simp at hm, ?_⟩
  · exact ((c8_unsupported_method c8Info (.ok [104, 105]) 200 "").1
      "post" rfl (by decide)).1
  · exact ((c8_unsupported_method c8Info (.ok [104, 105]) 200 "").1
      "post" rfl (by decide)).2 [("Content-Type", "text/plain")] [104, 105]
      (by decide) rfl
  · exact (c8_unsupported_method { url := "u" } (.ok []) 200 "").2 rfl

/-! ## Monitor lemmas and claims C2, C9 -/

theorem processEntry_mono (st : MonitorState) (d : DocEntry) (s : String)
    (h : s ∈ st.completed_files) : s ∈ (processEntry st d).completed_files := by
  unfold processEntry
  split
  · simp [h]
  · exact h

theorem processEntry_records (st : MonitorState) (d : DocEntry)
    (h : d.status ∈ terminalStatuses) :
    d.document_id ∈ (processEntry st d).completed_files := by
  unfold processEntry
  split
  · simp
  · rename_i hcond
    push_neg at hcond
    exact hcond h

theorem processEntry_noop (st : MonitorState) (d : DocEntry)
    (h : d.status ∈ terminalStatuses → d.document_id ∈ st.completed_files) :
    processEntry st d = st := by
  unfold processEntry
  rw [if_neg]
  intro hcond
  exact hcond.2 (h hcond.1)

theorem processEntry_measure (st : MonitorState) (d : DocEntry) :
    (processEntry st d).pbar - (3/4 : Rat) * (processEntry st d).completed_files.length
      = st.pbar - (3/4 : Rat) * st.completed_files.length := by
  unfold processEntry
  split
  · simp only [List.length_cons]
    push_cast
    ring
  · rfl

theorem processEntry_nodup (st : MonitorState) (d : DocEntry)
    (h : st.completed_files.Nodup) : (processEntry st d).completed_files.Nodup := by
  unfold processEntry
  split
  · rename_i hcond
    exact List.nodup_cons.mpr ⟨hcond.2, h⟩
  · exact h

theorem foldl_processEntry_mono (ds : List DocEntry) :
    ∀ (st : MonitorState) (s : String), s ∈ st.completed_files →
      s ∈ (ds.foldl processEntry st).completed_files := by
  induction ds with
  | nil => intro st s h; exact h
  | cons e ds ih =>
    intro st s h
    exact ih (processEntry st e) s (processEntry_mono st e s h)

theorem foldl_processEntry_records (ds : List DocEntry) :
    ∀ (st : MonitorState) (d : DocEntry), d ∈ ds → d.status ∈ terminalStatuses →
      d.document_id ∈ (ds.foldl processEntry st).completed_files := by
  induction ds with
  | nil => intro st d hd; simp at hd
  | cons e ds ih =>
    intro st d hd hterm
    rcases List.mem_cons.mp hd with h | h
    · subst h
      exact foldl_processEntry_mono ds (processEntry st d) d.document_id
        (processEntry_records st d hterm)
    · exact ih (processEntry st e) d h hterm

theorem foldl_processEntry_noop (ds : List DocEntry) :
    ∀ (st : MonitorState),
      (∀ d ∈ ds, d.status ∈ terminalStatuses → d.document_id ∈ st.completed_files) →
      ds.foldl processEntry st = st := by
  induction ds with
  | nil => intro st _; rfl
  | cons e ds ih =>
    intro st h
    have he : processEntry st e = st := processEntry_noop st e (h e (by simp))
    simp only [List.foldl_cons, he]
    exact ih st (fun d hd => h d (by simp [hd]))

theorem foldl_processEntry_measure (ds : List DocEntry) :
    ∀ (st : MonitorState),
      (ds.foldl processEntry st).pbar
          - (3/4 : Rat) * (ds.foldl processEntry st).completed_files.length
        = st.pbar - (3/4 : Rat) * st.completed_files.length := by
  induction ds with
  | nil => intro st; rfl
  | cons e ds ih =>
    intro st
    simp only [List.foldl_cons]
    rw [ih (processEntry st e)]
    exact processEntry_measure st e

theorem foldl_processEntry_nodup (ds : List DocEntry) :
    ∀ (st : MonitorState), st.completed_files.Nodup →
      (ds.foldl processEntry st).completed_files.Nodup := by
  induction ds with
  | nil => intro st h; exact h
  | cons e ds ih =>
    intro st h
    exact ih (processEntry st e) (processEntry_nodup st e h)

theorem processGroup_eq (st : MonitorState) (g : Option ProgressGroup) :
    processGroup st g = (groupEntries g).foldl processEntry st := by
  cases g with
  | none => rfl
  | some gg =>
    cases hd : gg.documents with
    | none => simp [processGroup, groupEntries, hd]
    | some ds => simp [processGroup, groupEntries, hd]

theorem processSnapshot_eq (st : MonitorState) (p : Option IngestProgress) :
    processSnapshot st p = (snapshotEntries p).foldl processEntry st := by
  cases p with
  | none => rfl
  | some pp =>
    simp [processSnapshot, snapshotEntries, processGroup_eq, List.foldl_append]

/-- Claim C2: monitor deduplication idempotence.  Scanning one progress
snapshot (the four sub-groups in source order) applies exactly one 0.75
progress-bar increment per newly recorded document identifier (the
difference pbar minus 3/4 times the recorded count is invariant, and the
recorded list stays duplicate-free), and replaying the same snapshot a
second time against the resulting state changes nothing at all — so an
identifier listed in several sub-groups or in repeated polls of one
monitored call is counted at most once. -/
theorem c2_monitor_dedup (st : MonitorState) (p : Option IngestProgress) :
    processSnapshot (processSnapshot st p) p = processSnapshot st p
      ∧ (processSnapshot st p).pbar
          - (3/4 : Rat) * (processSnapshot st p).completed_files.length
        = st.pbar - (3/4 : Rat) * st.completed_files.length
      ∧ (st.completed_files.Nodup → (processSnapshot st p).completed_files.Nodup) := by
  refine ⟨?_, ?_, ?_⟩
  · rw [processSnapshot_eq st p, processSnapshot_eq]
    apply foldl_processEntry_noop
    intro d hd hterm
    exact foldl_processEntry_records (snapshotEntries p) st d hd hterm
  · rw [processSnapshot_eq st p]
    exact foldl_processEntry_measure (snapshotEntries p) st
  · intro h
    rw [processSnapshot_eq st p]
    exact foldl_processEntry_nodup (snapshotEntries p) st h

def c2State : MonitorState := { completed_files := ["d1"], progress := 2, pbar := 0 }

def c2Progress : Option IngestProgress :=
  some
    { processing := some { documents := some [⟨"d2", "complete"⟩] }
      complete := some { documents := some [⟨"d2", "complete"⟩, ⟨"d3", "error"⟩] }
      cancelled := none
      errors := some { documents := some [⟨"d1", "cancelled"⟩, ⟨"d4", "processing"⟩] } }

theorem c2_monitor_dedup_witness :
    processSnapshot (processSnapshot c2State c2Progress) c2Progress
        = processSnapshot c2State c2Progress
      ∧ (processSnapshot c2State c2Progress).pbar
          - (3/4 : Rat) * (processSnapshot c2State c2Progress).completed_files.length
        = c2State.pbar - (3/4 : Rat) * c2State.completed_files.length
      ∧ (c2State.completed_files.Nodup →
          (processSnapshot c2State c2Progress).completed_files.Nodup) :=
  c2_monitor_dedup c2State c2Progress

/-- Claim C9: monitor on already-terminal input.  If the registration
response handed to _monitor_batch already carries a terminal status, the
while loop is never entered: zero polls (and hence zero sleeps) are
performed; with status complete the input snapshot and progress value are
returned unchanged, and with status error or cancelled the
ingestion-failure error is raised immediately. -/
theorem monitorLoop_terminal (polls : List IngestResponse) (ing : IngestResponse)
    (st : MonitorState) (h : ing.ingest.status ∈ terminalStatuses) :
    monitorLoop polls ing st = some (ing, st, 0) := by
  unfold monitorLoop
  rw [if_pos h]

theorem c9_monitor_terminal_input (polls : List IngestResponse)
    (ing : IngestResponse) (pr : Rat) :
    (ing.ingest.status = "complete" →
        monitorBatch polls ing pr = some (.ok (ing, pr), 0))
      ∧ ((ing.ingest.status = "error" ∨ ing.ingest.status = "cancelled") →
        monitorBatch polls ing pr
          = some (.error ("Ingest failed with status: " ++ ing.ingest.status), 0)) := by
  constructor
  · intro h
    have hterm : ing.ingest.status ∈ terminalStatuses := by
      rw [h]
      decide
    have hnotfail : ¬(ing.ingest.status = "error" ∨ ing.ingest.status = "cancelled") := by
      rw [h]
      decide
    unfold monitorBatch
    rw [monitorLoop_terminal polls ing _ hterm]
    simp [hnotfail]
  · intro h
    have hterm : ing.ingest.status ∈ terminalStatuses := by
      rcases h with h | h <;> rw [h] <;> decide
    unfold monitorBatch
    rw [monitorLoop_terminal polls ing _ hterm]
    simp [if_pos h]

def c9Complete : IngestResponse := ⟨⟨"p1", "complete", none⟩⟩

def c9Error : IngestResponse := ⟨⟨"p2", "error", none⟩⟩

theorem c9_monitor_terminal_input_witness :
    c9Complete.ingest.status = "complete"
      ∧ monitorBatch [] c9Complete (5/2) = some (.ok (c9Complete, 5/2), 0)
      ∧ (c9Error.ingest.status = "error" ∨ c9Error.ingest.status = "cancelled")
      ∧ monitorBatch [] c9Error 1
          = some (.error ("Ingest failed with status: " ++ c9Error.ingest.status), 0) :=
  ⟨rfl, (c9_monitor_terminal_input [] c9Complete (5/2)).1 rfl, Or.inl rfl,
    (c9_monitor_terminal_input [] c9Error 1).2 (Or.inl rfl)⟩

end GroundXSpec
